import Mathlib

/-!
Verification of the sampling-based MPC solver family in
`rllib/algorithms/control/mpc.py` (classes `MPCSolver`, `CEMShooting`,
`RandomShooting`, `MPPIShooting`).

Shallow embedding conventions:
* an action vector is a `List ℚ` (one rational per action dimension);
* an action sequence (the per-time-step mean) is a `List (List ℚ)`,
  outer index = time step `0 .. H-1`;
* a per-time-step covariance matrix is a `List (List ℚ)` (row-major), and
  the horizon-long stack of them is a `List (List (List ℚ))`;
* Python `None` is `Option.none`; a Python `raise` is `Except.error ()`;
* real/tensor arithmetic is modelled over `ℚ` (exactly representing the
  literals the claims use); the MPPI exponential weights are modelled
  over `ℝ` since they involve `exp`;
* batched solver calls are modelled for the unbatched case
  (`batch_shape == ()`), where the broadcast `repeat` at the end of
  `initialize_actions` is the identity.
-/

/-- Python truthiness of an optional natural number argument: `None` and `0`
are falsy.  Used by `MPCSolver.__init__` (`if not num_samples`) and
`CEMShooting.__init__` (`if not num_elites`). -/
def pyFalsy : Option ℕ → Bool
  | none => true
  | some n => n == 0

/-- `self.num_samples = 10 * horizon if not num_samples else num_samples`
(`MPCSolver.__init__`, mpc.py line 70). -/
def mpcNumSamples (horizon : ℕ) (num_samples : Option ℕ) : ℕ :=
  if pyFalsy num_samples then 10 * horizon else num_samples.getD 0

/-- Combined effect of `MPCSolver.__init__` line 70 and `CEMShooting.__init__`
line 200 on the pair `(self.num_samples, self.num_elites)`.  Line 200 reads
the *local* `num_samples` argument, not `self.num_samples`:
`self.num_elites = max(1, num_samples // 10) if not num_elites else num_elites`.
When both arguments are `None`, Python evaluates `None // 10` and raises a
`TypeError`, modelled as `Except.error ()`. -/
def cemInitCounts (horizon : ℕ) (num_samples num_elites : Option ℕ) :
    Except Unit (ℕ × ℕ) :=
  let ns := mpcNumSamples horizon num_samples
  if pyFalsy num_elites then
    match num_samples with
    | none => Except.error ()
    | some n => Except.ok (ns, max 1 (n / 10))
  else
    Except.ok (ns, num_elites.getD 0)

/-- Identity matrix `torch.eye(n)` with rational entries. -/
def eyeQ (n : ℕ) : List (List ℚ) :=
  (List.range n).map (fun i => (List.range n).map (fun j => if i = j then 1 else 0))

/-- Covariance stack `(scale ** 2) * torch.eye(dim_action).repeat(horizon, 1, 1)`
(mpc.py lines 78-79 and 125-126): the `scale²·I` matrix repeated `horizon`
times. -/
def initCovariance (scale : ℚ) (horizon dim_action : ℕ) : List (List (List ℚ)) :=
  List.replicate horizon ((eyeQ dim_action).map (fun row => row.map (fun x => scale ^ 2 * x)))

/-- Componentwise mean over the time axis with `keepdim` semantics collapsed to
the single resulting vector: `torch.mean(next_mean, dim=-2, keepdim=True)`
(mpc.py line 119).  `dim_action` fixes the number of components. -/
def vecMeanOverTime (dim_action : ℕ) (steps : List (List ℚ)) : List ℚ :=
  (List.range dim_action).map (fun a => ((steps.map (fun v => v.getD a 0)).sum) / steps.length)

/-- Mean computation of `MPCSolver.initialize_actions` (mpc.py lines 110-124).
With warm start and a persisted mean, the mean is shifted one step
(`next_mean = self.mean[..., 1:, :]`) and a final step is appended according
to `default_action`: `zero` appends `torch.zeros_like(self.mean[..., :1, :])`,
`constant` appends `self.mean[..., -1:, :]`, `mean` appends the time-mean of
`next_mean`; any other value raises `NotImplementedError`.  Otherwise the mean
is `torch.zeros(self.horizon, dim_action)`. -/
def initMean (warm_start : Bool) (default_action : String)
    (mean : Option (List (List ℚ))) (horizon dim_action : ℕ) :
    Except Unit (List (List ℚ)) :=
  match warm_start, mean with
  | true, some m =>
    let next_mean := m.drop 1
    if default_action = "zero" then
      Except.ok (next_mean ++ (m.take 1).map (fun v => v.map (fun _ => (0 : ℚ))))
    else if default_action = "constant" then
      Except.ok (next_mean ++ m.drop (m.length - 1))
    else if default_action = "mean" then
      Except.ok (next_mean ++ [vecMeanOverTime dim_action next_mean])
    else
      Except.error ()
  | _, _ => Except.ok (List.replicate horizon (List.replicate dim_action 0))

/-- Static configuration of a solver instance, fixed at construction
(`MPCSolver.__init__` / `CEMShooting.__init__`). -/
structure MPCCfg where
  horizon : ℕ
  dim_action : ℕ
  gamma : ℚ
  scale : ℚ
  num_iter : ℕ
  num_samples : ℕ
  num_elites : ℕ
  warm_start : Bool
  default_action : String
deriving DecidableEq, Repr

/-- Mutable solver state persisted across `solve` calls: the mean (`None`
until first use or after `reset()`), the covariance stack, and — for MPPI —
the number of `kappa.update()` calls performed so far (the step counter of
the `ParameterDecay` schedule). -/
structure MPCState where
  mean : Option (List (List ℚ))
  covariance : List (List (List ℚ))
  kappa_step : ℕ
deriving DecidableEq, Repr

/-- `MPCSolver.initialize_actions` (mpc.py lines 110-131) as a state
transformer: compute the new mean (possibly raising on an unknown
`default_action`), then reset the covariance to `scale²·I` per time step.
The trailing broadcast `repeat` is the identity in the unbatched case
modelled here.  The kappa step counter is untouched. -/
def initActions (cfg : MPCCfg) (s : MPCState) : Except Unit MPCState :=
  match initMean cfg.warm_start cfg.default_action s.mean cfg.horizon cfg.dim_action with
  | Except.error e => Except.error e
  | Except.ok m =>
    Except.ok { mean := some m,
                covariance := initCovariance cfg.scale cfg.horizon cfg.dim_action,
                kappa_step := s.kappa_step }

/-- `MPCSolver.reset` (mpc.py lines 148-150): `self.mean = warm_action`,
nothing else is touched. -/
def mpcReset (s : MPCState) (warm_action : Option (List (List ℚ))) : MPCState :=
  { s with mean := warm_action }

/-- Normalization of the MPPI filter coefficients at construction
(`MPPIShooting.__init__`, mpc.py lines 306-307):
`self.filter_coefficients /= torch.sum(self.filter_coefficients)`. -/
def normalizeCoefficients (c : List ℚ) : List ℚ :=
  c.map (fun x => x / c.sum)

/-- Loop body of the MPPI noise filter (mpc.py lines 315-319) at time step
`i`, acting on the noise buffer `buf` (one sample, one action component per
time step; the `einsum` contraction acts independently on each sample and
component).  `weights = self.filter_coefficients[:min(i + 1, lag)]`, the
window is `noise[..., max(0, i - lag + 1):i + 1, :]`, and
`noise[..., i, :] = einsum(weights.flip(0), window) / torch.sum(weights)`
is an in-place update of the buffer. -/
def filterStep (c : List ℚ) (buf : List ℚ) (i : ℕ) : List ℚ :=
  let m := min (i + 1) c.length
  let weights := c.take m
  let window := (buf.drop (i + 1 - m)).take m
  buf.set i ((List.zipWith (· * ·) weights.reverse window).sum / weights.sum)

/-- State of the in-place noise buffer after the first `j` iterations of the
filter loop `for i in range(self.horizon)` (mpc.py lines 315-319). -/
def mppiFilterUpTo (c raw : List ℚ) (j : ℕ) : List ℚ :=
  (List.range j).foldl (filterStep c) raw

/-- Full MPPI noise filter (mpc.py lines 314-319): run the in-place loop over
every time step of the raw noise (the noise tensor has `horizon` time steps,
matching the loop bound). -/
def mppiFilter (c raw : List ℚ) : List ℚ :=
  mppiFilterUpTo c raw raw.length

/-- Modelled from the spec (§4.5): the filtered noise the spec describes,
where step `i` combines the *raw* noise at steps `[max(0, i-lag+1), i]` with
the filter coefficients in reversed order, normalized by the sum of the
coefficients actually used.  Stated for comparison against `mppiFilter`,
which is translated from the code. -/
def specFilteredNoise (c raw : List ℚ) : List ℚ :=
  (List.range raw.length).map (fun i =>
    let m := min (i + 1) c.length
    let weights := c.take m
    let window := (raw.drop (i + 1 - m)).take m
    (List.zipWith (· * ·) weights.reverse window).sum / weights.sum)

/-- MPPI candidate generation for one sample
(`MPPIShooting.get_candidate_action_sequence`, mpc.py lines 309-322), one
action component: the candidate is `self.mean + noise` after the noise has
been filtered in place.  The trailing `transpose(0, -2)` only reorders the
sample axis against the time axis and is the identity for a single sample. -/
def mppiCandidate (c mean raw : List ℚ) : List ℚ :=
  List.zipWith (· + ·) mean (mppiFilter c raw)

/-- Maximum entry of a list of reals, `torch.max(returns)` for a nonempty
tensor (the empty case, an error in torch, is mapped to `0`). -/
def listMax : List ℝ → ℝ
  | [] => 0
  | x :: xs => xs.foldl max x

/-- Soft weights of `MPPIShooting.get_best_action` (mpc.py lines 324-327):
`returns = self.kappa() * returns` followed by
`weights = torch.exp(returns - torch.max(returns))`.  Noncomputable because
`Real.exp` is; the weight-ordering claim is an inequality, not an
evaluation. -/
noncomputable def mppiWeights (kappa : ℝ) (returns : List ℝ) : List ℝ :=
  let scaled := returns.map (fun r => kappa * r)
  scaled.map (fun r => Real.exp (r - listMax scaled))

/-- Observable events of one `MPCSolver.forward` call (mpc.py lines 133-146):
per iteration the solver samples candidates, evaluates them, selects, and
refits; for MPPI the refit (`MPPIShooting.update_sequence_generation`,
lines 331-334) assigns the new mean and then calls `self.kappa.update()`. -/
inductive MPCEvent where
  | sample
  | evaluate
  | select
  | refit
  | kappaUpdate
deriving DecidableEq, BEq, Repr

/-- Events of one iteration of the MPPI solve loop: the loop body of
`MPCSolver.forward` (lines 140-144), with `update_sequence_generation`
expanded to its two effects (lines 331-334). -/
def mppiIterationEvents : List MPCEvent :=
  [MPCEvent.sample, MPCEvent.evaluate, MPCEvent.select, MPCEvent.refit,
   MPCEvent.kappaUpdate]

/-- Event trace of one complete MPPI `solve` call with the given `num_iter`:
the loop body runs `num_iter` times (mpc.py line 140). -/
def mppiSolveTrace (num_iter : ℕ) : List MPCEvent :=
  (List.replicate num_iter mppiIterationEvents).flatten

/-- Index of the candidate with the greatest return among `idxs` (first such
index on ties), used to realize `torch.topk(returns, k, largest=True)`
deterministically.  `torch.topk` is deterministic for a fixed input; its tie
order is implementation-defined, and both CEM and Random Shooting go through
the identical implementation. -/
def pickBest (returns : List ℚ) (idxs : List ℕ) : ℕ :=
  idxs.foldl (fun b i => if returns.getD b 0 < returns.getD i 0 then i else b)
    (idxs.headD 0)

/-- Repeated selection of the best remaining index, `k` times. -/
def topkAux (returns : List ℚ) : ℕ → List ℕ → List ℕ
  | 0, _ => []
  | _ + 1, [] => []
  | k + 1, j :: rest =>
    let b := pickBest returns (j :: rest)
    b :: topkAux returns k ((j :: rest).erase b)

/-- Indices of the `k` candidates with the largest returns
(`torch.topk(returns, k=self.num_elites, largest=True, dim=-1)[1]` in
`CEMShooting.get_best_action`, mpc.py line 210). -/
def topkIdx (k : ℕ) (returns : List ℚ) : List ℕ :=
  topkAux returns k (List.range returns.length)

/-- Elite selection of `CEMShooting.get_best_action` (mpc.py lines 208-214):
gather the top-`k` candidate sequences by return. -/
def cemBestActions (k : ℕ) (candidates : List (List (List ℚ))) (returns : List ℚ) :
    List (List (List ℚ)) :=
  (topkIdx k returns).map (fun j => candidates.getD j [])

/-- Modelled from the spec: `sample_mean_and_cov` lives in `rllib/util`,
whose source is not part of this snapshot; §4.3 of the spec describes the
refit as "new mean_t = sample mean of the elite candidates' action at time
t".  Componentwise sample mean over the elite axis, per time step. -/
def seqSampleMean (horizon dim_action : ℕ) (elites : List (List (List ℚ))) :
    List (List ℚ) :=
  (List.range horizon).map (fun t =>
    (List.range dim_action).map (fun a =>
      ((elites.map (fun e => (e.getD t []).getD a 0)).sum) / elites.length))

/-- Modelled from the spec: the covariance half of `sample_mean_and_cov`
(§4.3: "new covariance_t = sample covariance of the elite set at time t").
Unbiased empirical covariance per time step. -/
def seqSampleCov (horizon dim_action : ℕ) (elites : List (List (List ℚ))) :
    List (List (List ℚ)) :=
  let mu := seqSampleMean horizon dim_action elites
  (List.range horizon).map (fun t =>
    (List.range dim_action).map (fun a =>
      (List.range dim_action).map (fun b =>
        ((elites.map (fun e =>
          ((e.getD t []).getD a 0 - (mu.getD t []).getD a 0) *
          ((e.getD t []).getD b 0 - (mu.getD t []).getD b 0))).sum) /
        (elites.length - 1))))

/-- One iteration of the CEM loop body (`MPCSolver.forward`, mpc.py lines
140-144, with the `CEMShooting` hooks): sample candidates from the current
`(mean, covariance)` via the seeded sampler, evaluate them through the
models, select the elites, and refit the distribution
(`CEMShooting.update_sequence_generation`, lines 216-219).  `sampler i mean
cov` stands for drawing `num_samples` sequences from
`MultivariateNormal(mean, cov)` at RNG position `i`: a fixed seed makes it a
deterministic function of these arguments.  `evalReturns` stands for
`evaluate_action_sequence` at the current state, a pure function of the
candidate given the (external) dynamics and reward models. -/
def cemStep (cfg : MPCCfg)
    (evalReturns : List (List ℚ) → ℚ)
    (sampler : ℕ → List (List ℚ) → List (List (List ℚ)) → List (List (List ℚ)))
    (s : List (List ℚ) × List (List (List ℚ))) (i : ℕ) :
    List (List ℚ) × List (List (List ℚ)) :=
  let candidates := sampler i s.1 s.2
  let returns := candidates.map evalReturns
  let elites := cemBestActions cfg.num_elites candidates returns
  (seqSampleMean cfg.horizon cfg.dim_action elites,
   seqSampleCov cfg.horizon cfg.dim_action elites)

/-- `MPCSolver.forward` (mpc.py lines 133-146) specialized to the CEM hooks:
initialize the action distribution, run `num_iter` iterations of
sample → evaluate → select → refit, persist and return the final mean. -/
def cemForward (cfg : MPCCfg)
    (evalReturns : List (List ℚ) → ℚ)
    (sampler : ℕ → List (List ℚ) → List (List (List ℚ)) → List (List (List ℚ)))
    (s : MPCState) : Except Unit (List (List ℚ) × MPCState) :=
  match initActions cfg s with
  | Except.error e => Except.error e
  | Except.ok s1 =>
    let r := (List.range cfg.num_iter).foldl (cemStep cfg evalReturns sampler)
      (s1.mean.getD [], s1.covariance)
    Except.ok (r.1, { s1 with mean := some r.1, covariance := r.2 })

/-- `CEMShooting.__init__` (mpc.py lines 191-200): run the base constructor
(defaulting `num_samples`) and compute `num_elites` from the *local*
`num_samples` argument; both steps are captured by `cemInitCounts`. -/
def mkCEMCfg (horizon dim_action : ℕ) (gamma scale : ℚ) (num_iter : ℕ)
    (num_samples num_elites : Option ℕ) (warm_start : Bool)
    (default_action : String) : Except Unit MPCCfg :=
  match cemInitCounts horizon num_samples num_elites with
  | Except.error e => Except.error e
  | Except.ok (ns, ne) =>
    Except.ok { horizon := horizon, dim_action := dim_action, gamma := gamma,
                scale := scale, num_iter := num_iter, num_samples := ns,
                num_elites := ne, warm_start := warm_start,
                default_action := default_action }

/-- `RandomShooting.__init__` (mpc.py lines 265-273): delegate everything to
`CEMShooting.__init__` with `num_iter=1`; no hook is overridden, so a Random
Shooting solver runs exactly `cemForward` on this configuration. -/
def mkRandomShootingCfg (horizon dim_action : ℕ) (gamma scale : ℚ)
    (num_samples num_elites : Option ℕ) (warm_start : Bool)
    (default_action : String) : Except Unit MPCCfg :=
  mkCEMCfg horizon dim_action gamma scale 1 num_samples num_elites warm_start
    default_action

/-- C5: constructing `CEMShooting` with `num_samples` and `num_elites` both
unset does not succeed: line 200 evaluates `max(1, num_samples // 10)` on the
*local* argument `num_samples`, which is `None`, so Python raises a
`TypeError` instead of deriving `num_elites` from the defaulted
`self.num_samples = 10 * horizon`.  Shown here at `horizon = 5`, where the
claim expects `num_elites == 5`. -/
theorem cem_default_construction_raises :
    cemInitCounts 5 none none = Except.error () ∧
    max 1 (mpcNumSamples 5 none / 10) = 5 :=
  ⟨rfl, by decide⟩

/-- C3 counterexample: constructing CEM with `num_samples = 10` and
`num_elites = 20` keeps `num_elites = 20` as-is; it is neither rejected nor
clamped to `num_samples`. -/
theorem cem_num_elites_not_clamped :
    cemInitCounts 5 (some 10) (some 20) = Except.ok (10, 20) ∧ ¬ (20 ≤ 10) :=
  ⟨rfl, by decide⟩

/-- C3 amended: any truthy `num_elites` argument (in particular one larger
than `num_samples`) is stored unchanged by `CEMShooting.__init__`; no
clamping or rejection happens at construction. -/
theorem cem_num_elites_kept (horizon : ℕ) (num_samples : Option ℕ) (e : ℕ)
    (he : e ≠ 0) :
    cemInitCounts horizon num_samples (some e) =
      Except.ok (mpcNumSamples horizon num_samples, e) := by
  simp [cemInitCounts, pyFalsy, he]

/-- C3 amended, witness: the amended statement at `horizon = 5`,
`num_samples = 10`, `num_elites = 20`. -/
theorem cem_num_elites_kept_witness :
    (20 : ℕ) ≠ 0 ∧
    cemInitCounts 5 (some 10) (some 20) =
      Except.ok (mpcNumSamples 5 (some 10), 20) :=
  ⟨by decide, cem_num_elites_kept 5 (some 10) 20 (by decide)⟩

/-- C7: whenever `initialize_actions` completes, the covariance of the
resulting state is `scale²·I` per time step — independent of `warm_start`,
of the persisted mean, and of whatever covariance the previous solve left
behind.  Only the mean ever persists. -/
theorem covariance_always_reset (cfg : MPCCfg) (s s' : MPCState)
    (h : initActions cfg s = Except.ok s') :
    s'.covariance = initCovariance cfg.scale cfg.horizon cfg.dim_action := by
  unfold initActions at h
  cases hm : initMean cfg.warm_start cfg.default_action s.mean cfg.horizon cfg.dim_action with
  | error e => rw [hm] at h; exact absurd h (by simp)
  | ok m => rw [hm] at h; cases h; rfl

/-- C7 witness: a warm-started solver with a stale, non-default covariance
still comes out of `initialize_actions` with covariance `scale²·I` repeated
over the horizon (`scale = 3/10`, `horizon = 2`, `dim_action = 1`). -/
theorem covariance_always_reset_witness :
    initActions
      { horizon := 2, dim_action := 1, gamma := 1, scale := 3/10,
        num_iter := 1, num_samples := 20, num_elites := 2,
        warm_start := true, default_action := "zero" }
      { mean := some [[1], [2]], covariance := [[[5]], [[7]]], kappa_step := 3 }
      = Except.ok
          { mean := some [[2], [0]],
            covariance := initCovariance (3/10) 2 1, kappa_step := 3 } ∧
    ({ mean := some [[2], [0]],
       covariance := initCovariance (3/10) 2 1, kappa_step := 3 } : MPCState).covariance
      = initCovariance (3/10) 2 1 :=
  ⟨rfl,
   covariance_always_reset
     { horizon := 2, dim_action := 1, gamma := 1, scale := 3/10,
       num_iter := 1, num_samples := 20, num_elites := 2,
       warm_start := true, default_action := "zero" }
     { mean := some [[1], [2]], covariance := [[[5]], [[7]]], kappa_step := 3 }
     { mean := some [[2], [0]],
       covariance := initCovariance (3/10) 2 1, kappa_step := 3 }
     rfl⟩

/-- C10: `reset(warm_action)` only overwrites the persisted mean: covariance
and kappa step counter (and the immutable configuration, which lives outside
`MPCState`) are untouched; and after `reset()` with its default `None`
argument, the next `initialize_actions` takes the cold-start branch even
with `warm_start = true`, producing the all-zeros mean of `horizon` zero
vectors. -/
theorem reset_frame_and_cold_start (s : MPCState)
    (w : Option (List (List ℚ))) (cfg : MPCCfg) :
    (mpcReset s w).mean = w ∧
    (mpcReset s w).covariance = s.covariance ∧
    (mpcReset s w).kappa_step = s.kappa_step ∧
    initActions cfg (mpcReset s none) =
      Except.ok
        { mean := some (List.replicate cfg.horizon (List.replicate cfg.dim_action 0)),
          covariance := initCovariance cfg.scale cfg.horizon cfg.dim_action,
          kappa_step := s.kappa_step } := by
  refine ⟨rfl, rfl, rfl, ?_⟩
  cases h : cfg.warm_start <;> simp [initActions, initMean, mpcReset, h]

/-- C1 counterexample: with `num_iter = 2` a single MPPI solve call invokes
`kappa.update()` twice, not once — `update_sequence_generation` runs inside
every iteration of the loop in `forward`, so the first update happens
between the two iterations. -/
theorem mppi_kappa_update_twice :
    ¬ ((mppiSolveTrace 2).count MPCEvent.kappaUpdate = 1) := by
  decide

/-- C1 amended: `kappa.update()` is invoked exactly `num_iter` times per
completed MPPI solve call — once per iteration, at the end of each refit
(`update_sequence_generation`) — hence exactly once per solve only when
`num_iter = 1`. -/
theorem mppi_kappa_update_per_iteration (num_iter : ℕ) :
    (mppiSolveTrace num_iter).count MPCEvent.kappaUpdate = num_iter := by
  induction num_iter with
  | zero => decide
  | succ n ih =>
    have h : mppiSolveTrace (n + 1) =
        mppiIterationEvents ++ mppiSolveTrace n := by
      simp [mppiSolveTrace, List.replicate_succ]
    rw [h, List.count_append, ih]
    have hone : List.count MPCEvent.kappaUpdate mppiIterationEvents = 1 := rfl
    rw [hone]
    omega

/-- C4 counterexample: a CEM solver constructed with
`default_action = "bogus"` is built without any error, and with
`warm_start = false` even a full `initialize_actions` (the start of a solve
call) completes without raising: the unknown value is never validated at
construction and is only reached inside the warm-start branch. -/
theorem unknown_default_action_accepted :
    mkCEMCfg 2 1 1 (3/10) 5 (some 10) (some 2) false "bogus" =
      Except.ok
        { horizon := 2, dim_action := 1, gamma := 1, scale := 3/10,
          num_iter := 5, num_samples := 10, num_elites := 2,
          warm_start := false, default_action := "bogus" } ∧
    initActions
      { horizon := 2, dim_action := 1, gamma := 1, scale := 3/10,
        num_iter := 5, num_samples := 10, num_elites := 2,
        warm_start := false, default_action := "bogus" }
      { mean := none, covariance := [], kappa_step := 0 } =
      Except.ok
        { mean := some [[0], [0]], covariance := initCovariance (3/10) 2 1,
          kappa_step := 0 } :=
  ⟨rfl, rfl⟩

/-- C4 amended: an unknown `default_action` is accepted silently at
construction; the `NotImplementedError` is raised only when
`initialize_actions` (run at the start of each solve call) takes the
warm-start branch, i.e. when `warm_start` is set and a previous mean is
persisted.  With `warm_start = false`, or without a persisted mean, the
invalid value is never rejected and the cold-start zeros are produced. -/
theorem unknown_default_action_deferred (cfg : MPCCfg) (s : MPCState)
    (h0 : cfg.default_action ≠ "zero")
    (h1 : cfg.default_action ≠ "constant")
    (h2 : cfg.default_action ≠ "mean") :
    (cfg.warm_start = true → s.mean ≠ none → initActions cfg s = Except.error ()) ∧
    (cfg.warm_start = false ∨ s.mean = none →
      initActions cfg s =
        Except.ok
          { mean := some (List.replicate cfg.horizon (List.replicate cfg.dim_action 0)),
            covariance := initCovariance cfg.scale cfg.horizon cfg.dim_action,
            kappa_step := s.kappa_step }) := by
  constructor
  · intro hw hm
    cases hsm : s.mean with
    | none => exact absurd hsm hm
    | some m => simp [initActions, initMean, hw, hsm, h0, h1, h2]
  · intro hcold
    rcases hcold with hw | hm
    · cases hsm : s.mean <;> simp [initActions, initMean, hw, hsm]
    · cases hw : cfg.warm_start <;> simp [initActions, initMean, hw, hm]

/-- C4 amended, witness: the amended statement at a concrete configuration
with `default_action = "bogus"`, `warm_start = true` and a persisted mean,
where the hypotheses hold and the warm branch raises. -/
theorem unknown_default_action_deferred_witness :
    ("bogus" : String) ≠ "zero" ∧ ("bogus" : String) ≠ "constant" ∧
    ("bogus" : String) ≠ "mean" ∧
    ((({ horizon := 2, dim_action := 1, gamma := 1, scale := 3/10,
         num_iter := 5, num_samples := 10, num_elites := 2,
         warm_start := true, default_action := "bogus" } : MPCCfg).warm_start = true →
      ({ mean := some [[1], [2]], covariance := [], kappa_step := 0 } : MPCState).mean ≠ none →
      initActions
        { horizon := 2, dim_action := 1, gamma := 1, scale := 3/10,
          num_iter := 5, num_samples := 10, num_elites := 2,
          warm_start := true, default_action := "bogus" }
        { mean := some [[1], [2]], covariance := [], kappa_step := 0 } =
        Except.error ()) ∧
     (({ horizon := 2, dim_action := 1, gamma := 1, scale := 3/10,
         num_iter := 5, num_samples := 10, num_elites := 2,
         warm_start := true, default_action := "bogus" } : MPCCfg).warm_start = false ∨
      ({ mean := some [[1], [2]], covariance := [], kappa_step := 0 } : MPCState).mean = none →
      initActions
        { horizon := 2, dim_action := 1, gamma := 1, scale := 3/10,
          num_iter := 5, num_samples := 10, num_elites := 2,
          warm_start := true, default_action := "bogus" }
        { mean := some [[1], [2]], covariance := [], kappa_step := 0 } =
        Except.ok
          { mean := some (List.replicate 2 (List.replicate 1 0)),
            covariance := initCovariance (3/10) 2 1, kappa_step := 0 })) :=
  ⟨by decide, by decide, by decide,
   unknown_default_action_deferred
     { horizon := 2, dim_action := 1, gamma := 1, scale := 3/10,
       num_iter := 5, num_samples := 10, num_elites := 2,
       warm_start := true, default_action := "bogus" }
     { mean := some [[1], [2]], covariance := [], kappa_step := 0 }
     (by decide) (by decide) (by decide)⟩

/-- C8: a Random Shooting solver is by construction a CEM solver with
`num_iter = 1` — `RandomShooting.__init__` forwards every argument to
`CEMShooting.__init__` with `num_iter=1` and overrides no hook — so with the
same seed (same `sampler` function), the same models (`evalReturns`), the
same `num_samples`/`num_elites` arguments and the same persisted state, the
two `forward` calls produce identical results on every input. -/
theorem random_shooting_eq_cem_single_iter
    (horizon dim_action : ℕ) (gamma scale : ℚ)
    (num_samples num_elites : Option ℕ) (warm_start : Bool)
    (default_action : String)
    (evalReturns : List (List ℚ) → ℚ)
    (sampler : ℕ → List (List ℚ) → List (List (List ℚ)) → List (List (List ℚ)))
    (s : MPCState) :
    (mkRandomShootingCfg horizon dim_action gamma scale num_samples num_elites
        warm_start default_action).map
      (fun cfg => cemForward cfg evalReturns sampler s) =
    (mkCEMCfg horizon dim_action gamma scale 1 num_samples num_elites
        warm_start default_action).map
      (fun cfg => cemForward cfg evalReturns sampler s) :=
  rfl

/-- C9: in the MPPI soft weighting
`weights = exp(kappa * returns - max(kappa * returns))`, a candidate with a
strictly larger return gets a strictly larger weight whenever `kappa > 0`:
the max-subtraction shifts both exponents by the same constant and `exp` is
strictly increasing. -/
theorem mppi_weight_ordering (kappa : ℝ) (rs : List ℝ) (a b : ℕ)
    (ha : a < rs.length) (hb : b < rs.length) (hk : 0 < kappa)
    (hab : rs.getD b 0 < rs.getD a 0) :
    (mppiWeights kappa rs).getD b 0 < (mppiWeights kappa rs).getD a 0 := by
  have hunfold : mppiWeights kappa rs =
      (rs.map (fun r => kappa * r)).map
        (fun r => Real.exp (r - listMax (rs.map (fun r => kappa * r)))) := rfl
  have key : ∀ n : ℕ, n < rs.length → (mppiWeights kappa rs).getD n 0 =
      Real.exp (kappa * rs.getD n 0 - listMax (rs.map (fun r => kappa * r))) := by
    intro n hn
    have hrsn : rs[n]? = some (rs.getD n 0) := by
      rw [List.getD_eq_getElem?_getD, List.getElem?_eq_getElem hn]
      rfl
    rw [hunfold, List.getD_eq_getElem?_getD, List.getElem?_map, List.getElem?_map,
      hrsn]
    rfl
  rw [key a ha, key b hb]
  exact Real.exp_lt_exp.mpr
    (sub_lt_sub_right (mul_lt_mul_of_pos_left hab hk) _)

/-- C9 witness: with `kappa = 1` and returns `[2, 1]`, candidate 0 (return
`2`) receives a strictly larger weight than candidate 1 (return `1`). -/
theorem mppi_weight_ordering_witness :
    (0 : ℕ) < ([(2 : ℝ), 1] : List ℝ).length ∧
    (1 : ℕ) < ([(2 : ℝ), 1] : List ℝ).length ∧
    (0 : ℝ) < 1 ∧
    ([(2 : ℝ), 1] : List ℝ).getD 1 0 < ([(2 : ℝ), 1] : List ℝ).getD 0 0 ∧
    (mppiWeights 1 [2, 1]).getD 1 0 < (mppiWeights 1 [2, 1]).getD 0 0 :=
  ⟨by norm_num, by norm_num, by norm_num, by norm_num [List.getD],
   mppi_weight_ordering 1 [2, 1] 0 1 (by norm_num) (by norm_num) (by norm_num)
     (by norm_num [List.getD])⟩

/-- C6: under warm start with persisted mean `m1` of length `H`, the
pre-iteration mean `m2` of the next solve call satisfies
`m2[t] = m1[t+1]` for `t ∈ [0, H-2]`, and the tail `m2[H-1]` follows the
`default_action` policy: a zero vector for `zero`, the previous final action
`m1[H-1]` for `constant`, the componentwise time-mean of `m1[1..H-1]` for
`mean`; concretely on `m1 = [[1],[2],[3]]` the three policies give
`[[2],[3],[0]]`, `[[2],[3],[3]]` and `[[2],[3],[5/2]]`. -/
theorem warm_start_shift_policies (m1 : List (List ℚ)) (H A : ℕ)
    (hlen : m1.length = H) (hH : 1 ≤ H) (p : String)
    (hp : p = "zero" ∨ p = "constant" ∨ p = "mean") :
    (∃ m2 : List (List ℚ),
      initMean true p (some m1) H A = Except.ok m2 ∧
      m2.length = H ∧
      (∀ t : ℕ, t + 1 < H → m2[t]? = m1[t + 1]?) ∧
      (p = "zero" → m2[H - 1]? = some (m1.headI.map (fun _ => (0 : ℚ)))) ∧
      (p = "constant" → m2[H - 1]? = m1[H - 1]?) ∧
      (p = "mean" → m2[H - 1]? = some (vecMeanOverTime A (m1.drop 1)))) ∧
    initMean true "zero" (some [[1], [2], [3]]) 3 1 = Except.ok [[2], [3], [0]] ∧
    initMean true "constant" (some [[1], [2], [3]]) 3 1 = Except.ok [[2], [3], [3]] ∧
    initMean true "mean" (some [[1], [2], [3]]) 3 1 = Except.ok [[2], [3], [5/2]] := by
  have hmeanlit : initMean true "mean" (some [[1], [2], [3]]) 3 1 =
      Except.ok [[2], [3], [5/2]] := by
    have h : vecMeanOverTime 1 [[2], [3]] = [5/2] := by
      norm_num [vecMeanOverTime, List.range_succ]
    show Except.ok ([[2], [3]] ++ [vecMeanOverTime 1 [[2], [3]]]) = _
    rw [h]
    rfl
  refine ⟨?_, rfl, rfl, hmeanlit⟩
  cases m1 with
  | nil => rw [List.length_nil] at hlen; omega
  | cons v rest =>
    have hrl : rest.length + 1 = H := by simpa using hlen
    have hH1 : H - 1 = rest.length := by omega
    rcases hp with rfl | rfl | rfl
    · refine ⟨rest ++ [v.map (fun _ => (0 : ℚ))], rfl, ?_, ?_, ?_, ?_, ?_⟩
      · simpa using hrl
      · intro t ht
        have htr : t < rest.length := by omega
        rw [List.getElem?_append_left htr, List.getElem?_cons_succ]
      · intro _
        rw [hH1, List.getElem?_append_right (le_refl rest.length), Nat.sub_self]
        rfl
      · intro h; exact absurd h (by decide)
      · intro h; exact absurd h (by decide)
    · refine ⟨rest ++ (v :: rest).drop ((v :: rest).length - 1), rfl, ?_, ?_, ?_, ?_, ?_⟩
      · rw [List.length_append, List.length_drop]
        simp only [List.length_cons]
        omega
      · intro t ht
        have htr : t < rest.length := by omega
        rw [List.getElem?_append_left htr, List.getElem?_cons_succ]
      · intro h; exact absurd h (by decide)
      · intro _
        have hd : (v :: rest).length - 1 = rest.length := by
          simp only [List.length_cons]; omega
        rw [hH1, hd, List.getElem?_append_right (le_refl rest.length),
          Nat.sub_self, List.getElem?_drop, Nat.add_zero]
      · intro h; exact absurd h (by decide)
    · refine ⟨rest ++ [vecMeanOverTime A ((v :: rest).drop 1)], rfl, ?_, ?_, ?_, ?_, ?_⟩
      · simpa using hrl
      · intro t ht
        have htr : t < rest.length := by omega
        rw [List.getElem?_append_left htr, List.getElem?_cons_succ]
      · intro h; exact absurd h (by decide)
      · intro h; exact absurd h (by decide)
      · intro _
        rw [hH1, List.getElem?_append_right (le_refl rest.length), Nat.sub_self]
        rfl

/-- C6 witness: the shift-and-policy statement instantiated at
`m1 = [[1],[2],[3]]`, `H = 3`, `A = 1`, policy `zero`. -/
theorem warm_start_shift_policies_witness :
    ([[1], [2], [3]] : List (List ℚ)).length = 3 ∧ 1 ≤ 3 ∧
    (("zero" : String) = "zero" ∨ ("zero" : String) = "constant" ∨
      ("zero" : String) = "mean") ∧
    ((∃ m2 : List (List ℚ),
      initMean true "zero" (some [[1], [2], [3]]) 3 1 = Except.ok m2 ∧
      m2.length = 3 ∧
      (∀ t : ℕ, t + 1 < 3 → m2[t]? = ([[1], [2], [3]] : List (List ℚ))[t + 1]?) ∧
      (("zero" : String) = "zero" →
        m2[3 - 1]? = some (([[1], [2], [3]] : List (List ℚ)).headI.map (fun _ => (0 : ℚ)))) ∧
      (("zero" : String) = "constant" →
        m2[3 - 1]? = ([[1], [2], [3]] : List (List ℚ))[3 - 1]?) ∧
      (("zero" : String) = "mean" →
        m2[3 - 1]? = some (vecMeanOverTime 1 (([[1], [2], [3]] : List (List ℚ)).drop 1)))) ∧
    initMean true "zero" (some [[1], [2], [3]]) 3 1 = Except.ok [[2], [3], [0]] ∧
    initMean true "constant" (some [[1], [2], [3]]) 3 1 = Except.ok [[2], [3], [3]] ∧
    initMean true "mean" (some [[1], [2], [3]]) 3 1 = Except.ok [[2], [3], [5/2]]) :=
  ⟨rfl, by omega, Or.inl rfl,
   warm_start_shift_policies [[1], [2], [3]] 3 1 rfl (by omega) "zero" (Or.inl rfl)⟩

theorem filterStep_length (c buf : List ℚ) (i : ℕ) :
    (filterStep c buf i).length = buf.length := by
  simp [filterStep]

theorem mppiFilterUpTo_zero (c raw : List ℚ) : mppiFilterUpTo c raw 0 = raw := rfl

theorem mppiFilterUpTo_succ (c raw : List ℚ) (j : ℕ) :
    mppiFilterUpTo c raw (j + 1) = filterStep c (mppiFilterUpTo c raw j) j := by
  simp [mppiFilterUpTo, List.range_succ]

theorem mppiFilterUpTo_length (c raw : List ℚ) (j : ℕ) :
    (mppiFilterUpTo c raw j).length = raw.length := by
  induction j with
  | zero => rfl
  | succ n ih => rw [mppiFilterUpTo_succ, filterStep_length, ih]

theorem mppiFilterUpTo_stable_ge (c raw : List ℚ) (j k : ℕ) (h : j ≤ k) :
    (mppiFilterUpTo c raw j)[k]? = raw[k]? := by
  induction j with
  | zero => rfl
  | succ n ih =>
    rw [mppiFilterUpTo_succ]
    have hk : n ≠ k := by omega
    calc (filterStep c (mppiFilterUpTo c raw n) n)[k]?
        = (mppiFilterUpTo c raw n)[k]? := List.getElem?_set_ne hk
      _ = raw[k]? := ih (by omega)

theorem mppiFilterUpTo_stable_lt (c raw : List ℚ) (j j2 k : ℕ) (hk : k < j)
    (hj : j ≤ j2) :
    (mppiFilterUpTo c raw j2)[k]? = (mppiFilterUpTo c raw j)[k]? := by
  induction j2, hj using Nat.le_induction with
  | base => rfl
  | succ n hn ih =>
    rw [mppiFilterUpTo_succ]
    have hk2 : n ≠ k := by omega
    calc (filterStep c (mppiFilterUpTo c raw n) n)[k]?
        = (mppiFilterUpTo c raw n)[k]? := List.getElem?_set_ne hk2
      _ = (mppiFilterUpTo c raw j)[k]? := ih

theorem mppiFilter_eq_upTo (c raw : List ℚ) (i : ℕ) (hi : i < raw.length) :
    (mppiFilter c raw)[i]? = (mppiFilterUpTo c raw (i + 1))[i]? :=
  mppiFilterUpTo_stable_lt c raw (i + 1) raw.length i (by omega) (by omega)

theorem mppiFilter_length (c raw : List ℚ) :
    (mppiFilter c raw).length = raw.length :=
  mppiFilterUpTo_length c raw raw.length

/-- Buffer state seen by the loop body at step `i`: positions `< i` already
hold the final filtered values, positions `≥ i` still hold the raw noise. -/
theorem mppiFilterUpTo_eq_hybrid (c raw : List ℚ) (i : ℕ) (hi : i ≤ raw.length) :
    mppiFilterUpTo c raw i = (mppiFilter c raw).take i ++ raw.drop i := by
  have htl : ((mppiFilter c raw).take i).length = i := by
    rw [List.length_take, mppiFilter_length]
    omega
  apply List.ext_getElem?
  intro n
  by_cases hn : n < i
  · have h1 : (mppiFilterUpTo c raw i)[n]? = (mppiFilter c raw)[n]? :=
      (mppiFilterUpTo_stable_lt c raw i raw.length n hn hi).symm
    rw [h1, List.getElem?_append_left (by omega : n < ((mppiFilter c raw).take i).length),
      List.getElem?_take_of_lt hn]
  · push_neg at hn
    rw [mppiFilterUpTo_stable_ge c raw i n hn,
      List.getElem?_append_right (by omega : ((mppiFilter c raw).take i).length ≤ n),
      htl, List.getElem?_drop]
    congr 1
    omega

/-- C2 amended: the in-place filter loop makes the filter *recursive*: the
filtered noise at step `i` is the weighted combination — coefficients in
reversed order, normalized by the sum of the coefficients actually used — of
the window `[max(0, i-lag+1), i]` drawn from the buffer
`(filtered output).take i ++ raw.drop i`, i.e. of the *already-filtered*
noise at the window steps before `i` together with the raw noise at step `i`
(not of the raw noise throughout, as the spec words it). -/
theorem mppiFilter_recurrence (c raw : List ℚ) (i : ℕ) (hi : i < raw.length) :
    (mppiFilter c raw)[i]? =
      some ((List.zipWith (· * ·) (c.take (min (i + 1) c.length)).reverse
        ((((mppiFilter c raw).take i ++ raw.drop i).drop
            (i + 1 - min (i + 1) c.length)).take (min (i + 1) c.length))).sum /
        (c.take (min (i + 1) c.length)).sum) := by
  rw [mppiFilter_eq_upTo c raw i hi, mppiFilterUpTo_succ]
  have hlen : i < (mppiFilterUpTo c raw i).length := by
    rw [mppiFilterUpTo_length]
    exact hi
  simp only [filterStep]
  rw [List.getElem?_set_self hlen]
  rw [mppiFilterUpTo_eq_hybrid c raw i (le_of_lt hi)]

/-- C2 counterexample: with construction-normalized coefficients from
`[1, 1]` (lag 2) and raw noise `[1, 0, 0]`, the code's in-place filter
yields `[1, 1/2, 1/4]` — at step 2 it reuses the already-filtered value of
step 1 — while the claimed combination of *raw* noise over the window would
yield `[1, 1/2, 0]`. -/
theorem mppi_filter_not_raw_window :
    mppiFilter (normalizeCoefficients [1, 1]) [1, 0, 0] ≠
      specFilteredNoise (normalizeCoefficients [1, 1]) [1, 0, 0] := by
  have h1 : normalizeCoefficients [1, 1] = [1/2, 1/2] := by
    norm_num [normalizeCoefficients]
  have h2 : mppiFilter [1/2, 1/2] [1, 0, 0] = [1, 1/2, 1/4] := by
    norm_num [mppiFilter, mppiFilterUpTo, filterStep, List.range_succ]
  have h3 : specFilteredNoise [1/2, 1/2] [1, 0, 0] = [1, 1/2, 0] := by
    norm_num [specFilteredNoise, List.range_succ]
  rw [h1, h2, h3]
  norm_num

/-- C2 amended, witness: the recursive-window characterization instantiated
at coefficients `[1/2, 1/2]`, raw noise `[1, 0, 0]`, step `i = 2`. -/
theorem mppiFilter_recurrence_witness :
    2 < ([1, 0, 0] : List ℚ).length ∧
    (mppiFilter [1/2, 1/2] [1, 0, 0])[2]? =
      some ((List.zipWith (· * ·)
        (([1/2, 1/2] : List ℚ).take (min (2 + 1) ([1/2, 1/2] : List ℚ).length)).reverse
        ((((mppiFilter [1/2, 1/2] [1, 0, 0]).take 2 ++ ([1, 0, 0] : List ℚ).drop 2).drop
            (2 + 1 - min (2 + 1) ([1/2, 1/2] : List ℚ).length)).take
          (min (2 + 1) ([1/2, 1/2] : List ℚ).length))).sum /
        (([1/2, 1/2] : List ℚ).take (min (2 + 1) ([1/2, 1/2] : List ℚ).length)).sum) :=
  ⟨by norm_num, mppiFilter_recurrence [1/2, 1/2] [1, 0, 0] 2 (by norm_num)⟩
